import Mathlib

/-!
# Verification of the arXiv paper-ingestion pipeline

A shallow embedding of the server-side logic of the "GrugTok" arXiv reader:

* `src/app/api/papers/route.ts` — `searchArxivPapers` (multi-query fetch,
  entry parsing, dedup, sort, truncate), `processPaperWithLLM` (LLM
  enrichment with fallback defaults), and the `GET /papers` handler.
* `src/app/api/papers/[id]/content/route.ts` — `fetchFullPaperContent`
  (three-strategy full-text retrieval) and the `GET /papers/{id}/content`
  handler.

External effects are modelled as oracle inputs: `fetch` is a function from
URL to `Option String` (`none` models the network layer throwing, either in
`fetch` itself or in `response.text()`), `Date` parsing is a function
`String → Option Int` (`none` models `NaN`), `Math.random` draws are a
function `Nat → String`, `JSON.parse` is a function returning the parsed
object or `none` when it throws, and the LLM completion call is a per-paper
outcome value.  Strings are processed through their character lists;
`String.length` counts code points where JavaScript counts UTF-16 units —
identical on the ASCII data these routes handle.
-/

/-- JS whitespace class `\s`, restricted to the ASCII whitespace characters. -/
def isJsWs (c : Char) : Bool :=
  c = ' ' || c = '\t' || c = '\n' || c = '\r' || c = '\x0b' || c = '\x0c'

/-- Helper for `replace(/\s+/g, ' ')`: collapse every whitespace run to a
single space.  The flag records whether the previous character was part of a
whitespace run. -/
def collapseWsAux : Bool → List Char → List Char
  | _, [] => []
  | prevWs, c :: cs =>
    if isJsWs c then
      if prevWs then collapseWsAux true cs
      else ' ' :: collapseWsAux true cs
    else c :: collapseWsAux false cs

/-- Models `String.prototype.trim` (strip leading and trailing whitespace). -/
def trimJs (s : List Char) : List Char :=
  ((s.dropWhile isJsWs).reverse.dropWhile isJsWs).reverse

/-- Models `str.replace(/\s+/g, ' ').trim()`, the whitespace normalisation
applied to extracted titles and abstracts. -/
def normalizeWs (s : List Char) : List Char :=
  trimJs (collapseWsAux false s)

/-- Lazy capture for `(.*?)` followed by the literal `cls`: the shortest
prefix (scanning left to right) after which `cls` matches.  With
`dotall = false` the dot does not match a newline, so a newline before the
closing literal fails the capture, exactly as in a JS regex without the `s`
flag.  Returns the capture and the remainder after the closing literal.
`cls` is never empty at call sites. -/
def captureAt (dotall : Bool) (cls : List Char) : List Char → Option (List Char × List Char)
  | [] => none
  | c :: cs =>
    if cls.isPrefixOf (c :: cs) then some ([], (c :: cs).drop cls.length)
    else if !dotall && c = '\n' then none
    else (captureAt dotall cls cs).map (fun p => (c :: p.1, p.2))

/-- Models `str.match(/opn(.*?)cls/)` (with or without the `s` flag) for
literal delimiters: scan for the first position where the open literal
matches and a lazy capture up to the close literal succeeds.  Returns the
captured group and the remainder after the match. -/
def findTagMatch (dotall : Bool) (opn cls : List Char) : List Char → Option (List Char × List Char)
  | [] => none
  | c :: cs =>
    if opn.isPrefixOf (c :: cs) then
      match captureAt dotall cls ((c :: cs).drop opn.length) with
      | some p => some p
      | none => findTagMatch dotall opn cls cs
    else findTagMatch dotall opn cls cs

/-- First captured group of `str.match(/opn(.*?)cls/)`, or `none` when the
regex does not match. -/
def matchTag (dotall : Bool) (opn cls : List Char) (s : List Char) : Option (List Char) :=
  (findTagMatch dotall opn cls s).map (·.1)

/-- Fuel-driven worker for `matchAllTag`.  Every successful match consumes at
least the two nonempty delimiters, so `fuel = s.length` is always enough and
the fuel never runs out in reality. -/
def matchAllTagGo (opn cls : List Char) : Nat → List Char → List (List Char)
  | 0, _ => []
  | fuel + 1, s =>
    match findTagMatch false opn cls s with
    | none => []
    | some (cap, rest) => cap :: matchAllTagGo opn cls fuel rest

/-- Models `Array.from(str.matchAll(/opn(.*?)cls/g))` restricted to the first
captured groups: all successive non-overlapping matches. -/
def matchAllTag (opn cls : List Char) (s : List Char) : List (List Char) :=
  matchAllTagGo opn cls (s.length + 1) s

/-- Fuel-driven worker for `splitOnList`.  Every separator hit consumes at
least one character (the separator is nonempty at all call sites), so
`fuel = s.length` always suffices and the fuel-exhausted branch is
unreachable. -/
def splitOnListGo (sep : List Char) : Nat → List Char → List (List Char)
  | _, [] => [[]]
  | 0, s => [s]
  | fuel + 1, c :: cs =>
    if sep ≠ [] ∧ sep.isPrefixOf (c :: cs) then
      [] :: splitOnListGo sep fuel ((c :: cs).drop sep.length)
    else
      match splitOnListGo sep fuel cs with
      | [] => [[c]]
      | seg :: rest => (c :: seg) :: rest

/-- Models `String.prototype.split` with a nonempty literal separator. -/
def splitOnList (sep s : List Char) : List (List Char) :=
  splitOnListGo sep s.length s

/-- Models `str.split('/').pop()`: the last path segment (split never returns
an empty array, so `pop` is total). -/
def lastSegment (s : List Char) : List Char :=
  (splitOnList ['/'] s).getLastD []

/-- The paper record produced by the entry parser
(interface `ArxivPaper` in `src/app/api/papers/route.ts`).
`content` is optional and absent (`none`) until explicitly set. -/
structure ArxivPaper where
  id : String
  title : String
  authors : List String
  abstract : String
  arxivUrl : String
  publishedAt : String
  content : Option String := none
deriving Repr, DecidableEq

/-- The entry parser: the per-entry body of the `for (const entry of entries)`
loop in `searchArxivPapers` (route.ts lines 78–90).  `now` models
`new Date().toISOString()` and `randId` models the `Math.random()` draw used
when the entry has no `<id>` element. -/
def parseEntry (now : String) (randId : String) (entry : List Char) : ArxivPaper :=
  let titleMatch := matchTag true "<title>".data "</title>".data entry
  let authorMatches := matchAllTag "<name>".data "</name>".data entry
  let abstractMatch := matchTag true "<summary>".data "</summary>".data entry
  let idMatch := matchTag false "<id>".data "</id>".data entry
  let publishedMatch := matchTag false "<published>".data "</published>".data entry
  let title := match titleMatch with
    | some t => String.mk (normalizeWs t)
    | none => "Unknown Title"
  let authors := authorMatches.map (fun m => String.mk (trimJs m))
  let abstract := match abstractMatch with
    | some a => String.mk (normalizeWs a)
    | none => ""
  let arxivId := match idMatch with
    | some i => String.mk (lastSegment i)
    | none => "paper_" ++ randId
  let arxivUrl := match idMatch with
    | some i => String.mk i
    | none => "https://arxiv.org/abs/" ++ arxivId
  let publishedAt := match publishedMatch with
    | some p => String.mk p
    | none => now
  { id := arxivId, title := title, authors := authors, abstract := abstract,
    arxivUrl := arxivUrl, publishedAt := publishedAt }

/-- Models `xmlText.split('<entry>').slice(1)`. -/
def entriesOf (xmlText : List Char) : List (List Char) :=
  (splitOnList "<entry>".data xmlText).drop 1

/-- Loop state of `searchArxivPapers`: the accumulated `allPapers` array, the
`seenIds` set (as a list of ids), and the index of the next `Math.random`
draw. -/
structure FetchState where
  papers : List ArxivPaper
  seen : List String
  rand : Nat
deriving Repr

/-- One iteration of the entry loop (route.ts lines 78–104): parse the entry,
then `if (!seenIds.has(arxivId) && abstract.length > 100)` push the paper and
record its id. -/
def entryStep (now : String) (randId : Nat → String) (st : FetchState) (entry : List Char) :
    FetchState :=
  let p := parseEntry now (randId st.rand) entry
  if !(st.seen.contains p.id) && decide (100 < p.abstract.length) then
    { papers := st.papers ++ [p], seen := p.id :: st.seen, rand := st.rand + 1 }
  else
    { st with rand := st.rand + 1 }

def arxivBaseUrl : String := "http://export.arxiv.org/api/query"

/-- The fixed `searchQueries` array (route.ts lines 59–65): five
topic-partitioned query strings, each asking for `maxResults / 5` entries
starting at `offset`. -/
def searchQueries (maxResults offset : Nat) : List String :=
  let tail := "&start=" ++ toString offset ++ "&max_results=" ++ toString (maxResults / 5)
  [ "search_query=cat:cs.AI+OR+cat:cs.LG+OR+cat:cs.CL+OR+cat:cs.CV+OR+cat:cs.NE" ++ tail,
    "search_query=cat:stat.ML+OR+cat:cs.IR+OR+cat:cs.HC+OR+cat:cs.CR" ++ tail,
    "search_query=all:\"machine learning\"+OR+\"deep learning\"+OR+\"neural network\"+OR+\"large language model\"" ++ tail,
    "search_query=all:\"transformer\"+OR+\"attention\"+OR+\"GPT\"+OR+\"BERT\"" ++ tail,
    "search_query=all:\"reinforcement learning\"+OR+\"AI ethics\"+OR+\"foundation model\"" ++ tail ]

/-- The `for (const searchQuery of searchQueries)` loop inside the `try`
block (route.ts lines 71–105).  `fetch` maps a URL to the response text;
`none` models the network layer throwing, which propagates out of the loop
to the surrounding `catch`, so the whole loop evaluates to `none`. -/
def fetchLoop (now : String) (randId : Nat → String) (fetch : String → Option String) :
    List String → FetchState → Option FetchState
  | [], st => some st
  | q :: rest, st =>
    match fetch (arxivBaseUrl ++ "?" ++ q) with
    | none => none
    | some xmlText =>
      fetchLoop now randId fetch rest ((entriesOf xmlText.data).foldl (entryStep now randId) st)

/-- Models `new Date(s).getTime()` comparison material: `getTime s = none`
models an unparsable date (`NaN`).  `Date` parsing itself is a runtime
primitive, supplied as an oracle. -/
def SortTime : Type := String → Option Int

/-- The comparator `(a, b) => new Date(b.publishedAt).getTime() -
new Date(a.publishedAt).getTime()` as consumed by `Array.prototype.sort`:
`sortLe a b` holds when the comparator result is `≤ 0`, i.e. `a` may stay
before `b`.  ECMAScript `SortCompare` maps a `NaN` comparator result to `+0`,
so any pair involving an unparsable date compares as equal (`true`). -/
def sortLe (getTime : SortTime) (a b : ArxivPaper) : Bool :=
  match getTime a.publishedAt, getTime b.publishedAt with
  | some ta, some tb => decide (tb ≤ ta)
  | _, _ => true

/-- Fuel-driven worker for `jsMerge`.  Each step consumes one element, so
`fuel = xs.length + ys.length` always suffices and the fuel-exhausted branch
is unreachable. -/
def jsMergeGo (le : ArxivPaper → ArxivPaper → Bool) :
    Nat → List ArxivPaper → List ArxivPaper → List ArxivPaper
  | _, [], ys => ys
  | _, x :: xs, [] => x :: xs
  | 0, x :: xs, y :: ys => x :: xs ++ y :: ys
  | fuel + 1, x :: xs, y :: ys =>
    if le x y then x :: jsMergeGo le fuel xs (y :: ys)
    else y :: jsMergeGo le fuel (x :: xs) ys

/-- Stable two-run merge: take from the left run while its head may stay
before the right head. -/
def jsMerge (le : ArxivPaper → ArxivPaper → Bool) (xs ys : List ArxivPaper) :
    List ArxivPaper :=
  jsMergeGo le (xs.length + ys.length) xs ys

/-- Fuel-driven worker for `jsMergeSort`.  Both halves of a list of length at
least two are strictly shorter, so `fuel = l.length` always suffices and the
fuel-exhausted branch is unreachable. -/
def jsMergeSortGo (le : ArxivPaper → ArxivPaper → Bool) : Nat → List ArxivPaper → List ArxivPaper
  | _, [] => []
  | _, [a] => [a]
  | 0, l => l
  | fuel + 1, a :: b :: rest =>
    let l := a :: b :: rest
    let n := l.length / 2
    jsMerge le (jsMergeSortGo le fuel (l.take n)) (jsMergeSortGo le fuel (l.drop n))

/-- Model of `Array.prototype.sort` with the recency comparator: a stable
top-down merge sort.  ECMAScript requires the sort to be stable; when the
comparator is not consistent (which happens exactly when some `publishedAt`
does not parse, making the comparator return `NaN`) the resulting order is
implementation-defined, and this stable merge sort is the model's choice. -/
def jsMergeSort (le : ArxivPaper → ArxivPaper → Bool) (l : List ArxivPaper) :
    List ArxivPaper :=
  jsMergeSortGo le l.length l

/-- `searchArxivPapers` (route.ts lines 55–116): run the five queries,
merging and deduplicating their parsed entries; on success sort by recency
and truncate to `maxResults`; if the network layer throws anywhere, the
`catch` returns the empty list. -/
def searchArxivPapers (now : String) (randId : Nat → String) (getTime : SortTime)
    (fetch : String → Option String) (maxResults offset : Nat) : List ArxivPaper :=
  match fetchLoop now randId fetch (searchQueries maxResults offset)
      { papers := [], seen := [], rand := 0 } with
  | none => []
  | some st => (jsMergeSort (sortLe getTime) st.papers).take maxResults

/-- The merged, deduplicated paper list before sorting and truncation (the
`allPapers` array at route.ts line 107); empty when the fetch failed. -/
def mergedPapers (now : String) (randId : Nat → String) (fetch : String → Option String)
    (maxResults offset : Nat) : List ArxivPaper :=
  match fetchLoop now randId fetch (searchQueries maxResults offset)
      { papers := [], seen := [], rand := 0 } with
  | none => []
  | some st => st.papers

/-- Parse a list of raw entries, numbering the `Math.random` draws from `k`. -/
def parsedFrom (now : String) (randId : Nat → String) : Nat → List (List Char) → List ArxivPaper
  | _, [] => []
  | k, e :: es => parseEntry now (randId k) e :: parsedFrom now randId (k + 1) es

/-- The raw entries a query contributes: the split of its response, or none
when the fetch fails. -/
def queryEntries (fetch : String → Option String) (q : String) : List (List Char) :=
  match fetch (arxivBaseUrl ++ "?" ++ q) with
  | none => []
  | some xmlText => entriesOf xmlText.data

/-- All raw entries across the topic queries, in processing order. -/
def allEntries (fetch : String → Option String) (qs : List String) : List (List Char) :=
  qs.flatMap (queryEntries fetch)

/-- The sequence of parsed candidate papers across all queries, before the
dedup/abstract filter. -/
def candidates (now : String) (randId : Nat → String) (fetch : String → Option String)
    (maxResults offset : Nat) : List ArxivPaper :=
  parsedFrom now randId 0 (allEntries fetch (searchQueries maxResults offset))

/-- The dedup/filter step of the entry loop, on an already-parsed paper. -/
def dedupStep (st : List ArxivPaper × List String) (p : ArxivPaper) :
    List ArxivPaper × List String :=
  if !(st.2.contains p.id) && decide (100 < p.abstract.length) then
    (st.1 ++ [p], p.id :: st.2)
  else st

/-- The first candidate with the given id that passes the abstract filter. -/
def firstEligible (l : List ArxivPaper) (i : String) : Option ArxivPaper :=
  (l.filter (fun q => q.id == i && decide (100 < q.abstract.length))).head?

/-! ## Paper Enricher (`processPaperWithLLM`, route.ts lines 119–219) -/

/-- The enriched paper (interface `ProcessedPaper`): both return paths of
`processPaperWithLLM` populate all four enrichment fields, and both set
`content` (held in the underlying `ArxivPaper`) to the empty string. -/
structure ProcessedPaper extends ArxivPaper where
  tag : String
  question : String
  answer : String
  bet : String
deriving Repr, DecidableEq

def defaultTag : String := "ML research"

def defaultQuestion : String := "Q: Research question not extracted"

def defaultAnswer : String := "A: Core idea not extracted"

def defaultBet : String := "Philosophical assumption not extracted"

/-- The four properties the enricher reads off the object produced by
`JSON.parse`.  The prompt mandates string values; a property that is missing
from the parsed object reads as `undefined`, modelled by `none`. -/
structure ExtractedJson where
  tag : Option String
  question : Option String
  answer : Option String
  bet : Option String
deriving Repr, DecidableEq

/-- Models `extracted.field || default`: JavaScript `||` keeps the left
operand only when it is truthy, and the empty string is falsy. -/
def jsOr (v : Option String) (d : String) : String :=
  match v with
  | none => d
  | some s => if s = "" then d else s

/-- The outcome of the `openai.chat.completions.create` call:
either the call (or anything else inside the `try` block before the parse)
throws, or it yields `completion.choices[0]?.message?.content`
(`none` models a nullish content). -/
inductive LlmResult where
  | throws : LlmResult
  | response : Option String → LlmResult

/-- The code-fence characters of the cleanup regex, spelled via escapes. -/
def fenceJsonNl : List Char := "\x60\x60\x60json\n".data

def fenceJson : List Char := "\x60\x60\x60json".data

def fenceNlClose : List Char := "\n\x60\x60\x60".data

def fenceClose : List Char := "\x60\x60\x60".data

/-- Fuel-driven worker for `stripFences`.  Every step consumes at least one
character, so `fuel = s.length` always suffices and the fuel-exhausted
branch is unreachable. -/
def stripFencesGo : Nat → List Char → List Char
  | _, [] => []
  | 0, s => s
  | fuel + 1, c :: cs =>
    if fenceJsonNl.isPrefixOf (c :: cs) then stripFencesGo fuel ((c :: cs).drop 8)
    else if fenceJson.isPrefixOf (c :: cs) then stripFencesGo fuel ((c :: cs).drop 7)
    else if fenceNlClose.isPrefixOf (c :: cs) then stripFencesGo fuel ((c :: cs).drop 4)
    else if fenceClose.isPrefixOf (c :: cs) then stripFencesGo fuel ((c :: cs).drop 3)
    else c :: stripFencesGo fuel cs

/-- Models `responseContent.replace(/\x60\x60\x60json\n?|\n?\x60\x60\x60/g, '')`:
delete every occurrence of a fence opener (with its optional trailing
newline, preferred by the greedy `?`) or fence closer (with its optional
leading newline). -/
def stripFences (s : List Char) : List Char :=
  stripFencesGo s.length s

/-- The `cleanResponse` value (route.ts line 181): strip markdown code
fences, then trim. -/
def cleanResponse (responseContent : String) : String :=
  String.mk (trimJs (stripFences responseContent.data))

/-- `processPaperWithLLM` (route.ts lines 119–219).  `jsonParse` is the
`JSON.parse` runtime primitive (`none` models a parse error, caught at line
187 leaving the defaults in place); `outcome` is the completion call's
result.  On any throw from the call itself, the `catch` at line 204 falls
through to the fixed default quartet.  Both paths spread the input paper and
set `content` to the empty string. -/
def processPaperWithLLM (jsonParse : String → Option ExtractedJson)
    (outcome : LlmResult) (paper : ArxivPaper) : ProcessedPaper :=
  match outcome with
  | LlmResult.throws =>
    { toArxivPaper := { paper with content := some "" },
      tag := defaultTag, question := defaultQuestion,
      answer := defaultAnswer, bet := defaultBet }
  | LlmResult.response responseContent =>
    let fields :=
      match responseContent with
      | none => (defaultTag, defaultQuestion, defaultAnswer, defaultBet)
      | some rc =>
        match jsonParse (cleanResponse rc) with
        | none => (defaultTag, defaultQuestion, defaultAnswer, defaultBet)
        | some extracted =>
          (jsOr extracted.tag defaultTag, jsOr extracted.question defaultQuestion,
           jsOr extracted.answer defaultAnswer, jsOr extracted.bet defaultBet)
    { toArxivPaper := { paper with content := some "" },
      tag := fields.1, question := fields.2.1,
      answer := fields.2.2.1, bet := fields.2.2.2 }

/-! ## Aggregation endpoint (`GET` in route.ts, lines 221–249) -/

/-- The success envelope returned by `GET /papers`. -/
structure PapersResponse where
  papers : List ProcessedPaper
  total : Nat
  offset : Nat
  hasMore : Bool
  categories : List String
deriving Repr

/-- The `GET /papers` handler: read `limit` (default 30) and `offset`
(default 0), fetch a page, enrich every paper (`Promise.all` over `map`
preserves order and length), and build the envelope with
`hasMore: processedPapers.length >= limit`.  `llm` gives each paper's
completion outcome.  Every operation inside the handler's `try` is total in
this model, so the 500 branch is unreachable and the handler always returns
the success envelope. -/
def papersGET (now : String) (randId : Nat → String) (getTime : SortTime)
    (fetch : String → Option String) (jsonParse : String → Option ExtractedJson)
    (llm : ArxivPaper → LlmResult) (limitParam offsetParam : Option Nat) : PapersResponse :=
  let limit := limitParam.getD 30
  let offset := offsetParam.getD 0
  let papers := searchArxivPapers now randId getTime fetch limit offset
  let processedPapers := papers.map (fun p => processPaperWithLLM jsonParse (llm p) p)
  { papers := processedPapers,
    total := processedPapers.length,
    offset := offset,
    hasMore := decide (limit ≤ processedPapers.length),
    categories := ["cs.AI", "cs.LG", "cs.CL", "cs.CV", "cs.NE",
                   "stat.ML", "cs.IR", "cs.HC", "cs.CR"] }

/-! ## Content Fetcher (`fetchFullPaperContent` in `[id]/content/route.ts`) -/

/-- A backtracking regex fragment: maps an input to the list of possible
remainders after a match at the head, in the engine's preference order. -/
def Matcher : Type := List Char → List (List Char)

/-- The empty pattern. -/
def mEps : Matcher := fun s => [s]

/-- A literal. -/
def mLit (t : List Char) : Matcher := fun s =>
  if t.isPrefixOf s then [s.drop t.length] else []

/-- Case-insensitive ASCII prefix test, for regexes with the `i` flag. -/
def ciPrefixOf (t s : List Char) : Bool :=
  (s.take t.length).map Char.toLower == t.map Char.toLower

/-- A case-insensitive literal (`i` flag). -/
def mLitCi (t : List Char) : Matcher := fun s =>
  if ciPrefixOf t s then [s.drop t.length] else []

/-- `class+`: greedy, longest first.  A character class never matches past
its maximal run, so enumerating suffixes of that run is exact. -/
def mPlus (p : Char → Bool) : Matcher := fun s =>
  let n := (s.takeWhile p).length
  (List.range n).map (fun i => s.drop (n - i))

/-- `class*`: greedy, longest first (includes the empty match, last). -/
def mStar (p : Char → Bool) : Matcher := fun s =>
  let n := (s.takeWhile p).length
  (List.range (n + 1)).map (fun i => s.drop (n - i))

/-- Sequencing; `flatMap` preserves the backtracking preference order. -/
def mSeq (a b : Matcher) : Matcher := fun s => (a s).flatMap b

/-- Sequence a list of fragments in order. -/
def mSeqs (ms : List Matcher) : Matcher := ms.foldr mSeq mEps

/-- Worker for the lazy `[\s\S]*?` before a case-insensitive closing literal:
remainders after each occurrence of the literal, nearest first. -/
def lazyUntilCiAux (t : List Char) : List Char → List (List Char)
  | [] => []
  | c :: cs =>
    (if ciPrefixOf t (c :: cs) then [(c :: cs).drop t.length] else []) ++ lazyUntilCiAux t cs

/-- `[\s\S]*?lit` with the `i` flag: lazy dot-all run up to the closing
literal. -/
def mLazyUntilCi (t : List Char) : Matcher := fun s => lazyUntilCiAux t s

/-- Length of the first (preferred) match of `m` at the head of `s`. -/
def matchLenAt (m : Matcher) (s : List Char) : Option Nat :=
  (m s).head?.map (fun r => s.length - r.length)

/-- A replacement step for `scanReplace`: match length at the head plus the
replacement text. -/
def matcherFind (m : Matcher) (repl : List Char) (s : List Char) : Option (Nat × List Char) :=
  (matchLenAt m s).map (fun n => (n, repl))

/-- Fuel-driven worker for `scanReplace`.  Every step consumes at least one
character (`max n 1` guards the degenerate zero-length match, which no
pattern used here produces), so `fuel = s.length` always suffices and the
fuel-exhausted branch is unreachable. -/
def scanReplaceGo (find : List Char → Option (Nat × List Char)) : Nat → List Char → List Char
  | _, [] => []
  | 0, s => s
  | fuel + 1, c :: cs =>
    match find (c :: cs) with
    | some (n, repl) => repl ++ scanReplaceGo find fuel ((c :: cs).drop (max n 1))
    | none => c :: scanReplaceGo find fuel cs

/-- Models `str.replace(/pat/g, repl)` for patterns that cannot match the
empty string: scan left to right, replacing each leftmost match and
continuing after it. -/
def scanReplace (find : List Char → Option (Nat × List Char)) (s : List Char) : List Char :=
  scanReplaceGo find s.length s

/-- JS word-character class `\w` (ASCII). -/
def isWordChar (c : Char) : Bool := c.isAlpha || c.isDigit || c = '_'

/-- The printable-ASCII class `[\x20-\x7E\n\r\t]` of the binary sniff. -/
def isPrintableAscii (c : Char) : Bool :=
  (0x20 ≤ c.toNat && c.toNat ≤ 0x7e) || c = '\n' || c = '\r' || c = '\t'

/-- `text.replace(/[^\x20-\x7E\n\r\t]/g, '').length`. -/
def printableCount (s : List Char) : Nat := (s.filter isPrintableAscii).length

/-- `/<script[^>]*>[\s\S]*?<\/script>/gi`, replaced by the empty string. -/
def scriptFind : List Char → Option (Nat × List Char) :=
  matcherFind (mSeqs [mLitCi "<script".data, mStar (fun c => !(c = '>')),
    mLit ">".data, mLazyUntilCi "</script>".data]) []

/-- `/<style[^>]*>[\s\S]*?<\/style>/gi`, replaced by the empty string. -/
def styleFind : List Char → Option (Nat × List Char) :=
  matcherFind (mSeqs [mLitCi "<style".data, mStar (fun c => !(c = '>')),
    mLit ">".data, mLazyUntilCi "</style>".data]) []

/-- `/<[^>]*>/g`, replaced by a space. -/
def tagFind : List Char → Option (Nat × List Char) :=
  matcherFind (mSeqs [mLit "<".data, mStar (fun c => !(c = '>')), mLit ">".data]) [' ']

/-- `/\s+/g`, replaced by a single space. -/
def wsRunFind (s : List Char) : Option (Nat × List Char) :=
  let n := (s.takeWhile isJsWs).length
  if n = 0 then none else some (n, [' '])

/-- `/\n\s*\n/g`, replaced by a double newline. -/
def nlWsNlFind : List Char → Option (Nat × List Char) :=
  matcherFind (mSeqs [mLit "\n".data, mStar isJsWs, mLit "\n".data]) "\n\n".data

/-- `/arXiv:\d+\.\d+v\d+\s*\[\w+\.\w+\]\s*\d+\s*\w+\s*\d+/g`, the arXiv
header boilerplate, replaced by the empty string. -/
def arxivHeaderFind : List Char → Option (Nat × List Char) :=
  matcherFind (mSeqs [mLit "arXiv:".data, mPlus Char.isDigit, mLit ".".data,
    mPlus Char.isDigit, mLit "v".data, mPlus Char.isDigit, mStar isJsWs,
    mLit "[".data, mPlus isWordChar, mLit ".".data, mPlus isWordChar, mLit "]".data,
    mStar isJsWs, mPlus Char.isDigit, mStar isJsWs, mPlus isWordChar,
    mStar isJsWs, mPlus Char.isDigit]) []

/-- `/Abstract\s*\.\s*/g`, replaced by the empty string. -/
def abstractDotFind : List Char → Option (Nat × List Char) :=
  matcherFind (mSeqs [mLit "Abstract".data, mStar isJsWs, mLit ".".data, mStar isJsWs]) []

/-- Whether `m` can match a prefix of `s` that extends exactly to the end of
the input (the `$` anchor without the `m` flag). -/
def matchesToEnd (m : Matcher) (s : List Char) : Bool :=
  (m s).any (fun r => r == [])

/-- The pattern of `/References\s*\.\s*$/g`. -/
def referencesPat : Matcher :=
  mSeqs [mLit "References".data, mStar isJsWs, mLit ".".data, mStar isJsWs]

/-- Models `text.replace(/References\s*\.\s*$/g, '')`: delete from the
leftmost position where the pattern matches through to the end of the
string; at most one such match exists because of the `$` anchor. -/
def stripRefsEnd : List Char → List Char
  | [] => []
  | c :: cs => if matchesToEnd referencesPat (c :: cs) then [] else c :: stripRefsEnd cs

/-- The left-brace and right-brace characters of the LaTeX-command regex. -/
def lbrace : Char := '\x7b'

def rbrace : Char := '\x7d'

/-- `/\\[a-zA-Z]+\x7b[^\x7d]*\x7d/g` (a backslash command with one braced
argument), replaced by the empty string. -/
def latexCmdFind : List Char → Option (Nat × List Char) :=
  matcherFind (mSeqs [mLit "\\".data, mPlus Char.isAlpha, mLit [lbrace],
    mStar (fun c => !(c = rbrace)), mLit [rbrace]]) []

/-- `/%.*$/gm` of `removeComments` (content route lines 118–120, a
`String.prototype` extension modelled as a plain function): delete from each
`%` to the end of its line. -/
def percentFind : List Char → Option (Nat × List Char)
  | [] => none
  | c :: cs =>
    if c = '%' then some (1 + (cs.takeWhile (fun d => !(d = '\n'))).length, [])
    else none

/-- The characters kept literally by `[^a-zA-Z0-9\s.,;:!?()-]`. -/
def basicPunct : List Char := ".,;:!?()-".data

/-- `/[^a-zA-Z0-9\s.,;:!?()-]/g`, replaced character-wise by a space. -/
def nonBasicMap (c : Char) : Char :=
  if c.isAlpha || c.isDigit || isJsWs c || basicPunct.contains c then c else ' '

/-- `String.prototype.removeComments` (the prototype extension). -/
def removeComments (s : List Char) : List Char := scanReplace percentFind s

/-- The HTML text-extraction pipeline of method 2 (content route lines
56–72): strip script and style blocks, strip tags to spaces, collapse
whitespace, trim, then strip the arXiv header, `Abstract.` and trailing
`References.` boilerplate. -/
def htmlPipeline (html : String) : String :=
  let t1 := scanReplace scriptFind html.data
  let t2 := scanReplace styleFind t1
  let t3 := scanReplace tagFind t2
  let t4 := scanReplace wsRunFind t3
  let t5 := scanReplace nlWsNlFind t4
  let t6 := trimJs t5
  let t7 := scanReplace arxivHeaderFind t6
  let t8 := scanReplace abstractDotFind t7
  String.mk (stripRefsEnd t8)

/-- The LaTeX text-extraction pipeline of method 3 (content route lines
90–96): strip comments, strip one-argument commands, replace non-basic
characters by spaces, collapse whitespace, trim. -/
def latexPipeline (latex : String) : String :=
  let t1 := removeComments latex.data
  let t2 := scanReplace latexCmdFind t1
  let t3 := t2.map nonBasicMap
  let t4 := scanReplace wsRunFind t3
  String.mk (trimJs t4)

/-- One strategy's network interaction: the fetch (or a body read) throws,
or the response is not ok, or it yields a payload. -/
inductive FetchOutcome (α : Type) where
  | throws : FetchOutcome α
  | notOk : FetchOutcome α
  | ok : α → FetchOutcome α

/-- `uint8Array[0] === 0x1f && uint8Array[1] === 0x8b` (an out-of-range index
reads `undefined`, which is not equal to a number). -/
def gzipMagic (bytes : List Nat) : Bool :=
  bytes[0]? == some 0x1f && bytes[1]? == some 0x8b

/-- Method 1 (content route lines 10–45): raw e-print bytes.  The payload
carries the response bytes together with their lossy UTF-8 decoding (the
`TextDecoder` runtime primitive).  A gzip signature or a sub-0.7 printable
ratio throws inside the strategy's own `try`, which falls through; the
ratio test `printable / total < 0.7` is modelled exactly as the rational
comparison `10 * printable < 7 * total` (for `total = 0` both the `NaN`
comparison and the model are false). -/
def method1 (r : FetchOutcome (List Nat × String)) : Option String :=
  match r with
  | FetchOutcome.throws => none
  | FetchOutcome.notOk => none
  | FetchOutcome.ok (bytes, text) =>
    if gzipMagic bytes then none
    else if 10 * printableCount text.data < 7 * text.data.length then none
    else if 1000 < text.length then some text
    else none

/-- Method 2 (content route lines 47–81): rendered HTML. -/
def method2 (r : FetchOutcome String) : Option String :=
  match r with
  | FetchOutcome.throws => none
  | FetchOutcome.notOk => none
  | FetchOutcome.ok html =>
    let text := htmlPipeline html
    if 1000 < text.length then some text else none

/-- Method 3 (content route lines 83–105): LaTeX source. -/
def method3 (r : FetchOutcome String) : Option String :=
  match r with
  | FetchOutcome.throws => none
  | FetchOutcome.notOk => none
  | FetchOutcome.ok latex =>
    let text := latexPipeline latex
    if 1000 < text.length then some text else none

/-- The oracle inputs of one `fetchFullPaperContent` run.  `outerThrows`
models an exception raised inside the outer `try` but outside the three
per-strategy `try` blocks (only logging and string building live there, so
this path is unreachable in practice, but the `catch` at line 111 exists). -/
structure ContentFetchInput where
  textReq : FetchOutcome (List Nat × String)
  htmlReq : FetchOutcome String
  latexReq : FetchOutcome String
  outerThrows : Bool := false

/-- The direct PDF link embedded in the placeholder message. -/
def pdfLink (arxivId : String) : String :=
  "https://arxiv.org/pdf/" ++ arxivId ++ ".pdf"

/-- The informative placeholder returned when every strategy fails (content
route line 109). -/
def placeholderMessage (arxivId : String) : String :=
  "Full paper content extraction is currently unavailable for this paper.\n\nPaper ID: "
    ++ arxivId ++ "\nDirect PDF link: " ++ pdfLink arxivId
    ++ "\n\nThe automatic text extraction encountered issues. Please use the arXiv link above to view the full paper directly."

/-- The outer-catch message (content route line 113). -/
def contentErrorMessage (arxivId : String) : String :=
  "Error fetching paper content for " ++ arxivId ++ ". Please visit arXiv directly."

/-- `fetchFullPaperContent` (content route lines 4–115): try the three
strategies in order, returning the first extracted text longer than 1000
characters, the placeholder when all fail, or the outer-catch message. -/
def fetchFullPaperContent (arxivId : String) (inp : ContentFetchInput) : String :=
  if inp.outerThrows then contentErrorMessage arxivId
  else
    match method1 inp.textReq with
    | some t => t
    | none =>
      match method2 inp.htmlReq with
      | some t => t
      | none =>
        match method3 inp.latexReq with
        | some t => t
        | none => placeholderMessage arxivId

/-- The response of `GET /papers/{id}/content` (content route lines
122–151): 400 when the id is falsy (the empty string), otherwise the content
payload with `hasContent: content.length > 0`. -/
inductive ContentResponse where
  | badRequest : ContentResponse
  | ok : String → String → Bool → ContentResponse
deriving Repr, DecidableEq

/-- The `GET /papers/{id}/content` handler. -/
def paperContentGET (arxivId : String) (inp : ContentFetchInput) : ContentResponse :=
  if arxivId = "" then ContentResponse.badRequest
  else
    let content := fetchFullPaperContent arxivId inp
    ContentResponse.ok arxivId content (decide (0 < content.length))

/-! ## Helper lemmas -/

/-- `jsOr` returns the default on an absent or empty (falsy) field. -/
theorem jsOr_falsy (v : Option String) (d : String) (h : v = none ∨ v = some "") :
    jsOr v d = d := by
  rcases h with h | h <;> simp [jsOr, h]

/-- `jsOr` never returns the empty string when the default is nonempty. -/
theorem jsOr_ne_empty (v : Option String) (d : String) (hd : d ≠ "") :
    jsOr v d ≠ "" := by
  rcases v with _ | s
  · simpa [jsOr] using hd
  · by_cases hs : s = "" <;> simp [jsOr, hs, hd]

/-! ## Claim theorems: Paper Enricher -/

/-- C6.  For every paper, if the LLM completion call raises, the Paper
Enricher returns a paper whose `tag`, `question`, `answer` and `bet` fields
are exactly the fixed default strings. -/
theorem processPaperWithLLM_throws_yields_default_quartet
    (jsonParse : String → Option ExtractedJson) (paper : ArxivPaper) :
    (processPaperWithLLM jsonParse LlmResult.throws paper).tag = "ML research"
    ∧ (processPaperWithLLM jsonParse LlmResult.throws paper).question
        = "Q: Research question not extracted"
    ∧ (processPaperWithLLM jsonParse LlmResult.throws paper).answer
        = "A: Core idea not extracted"
    ∧ (processPaperWithLLM jsonParse LlmResult.throws paper).bet
        = "Philosophical assumption not extracted" :=
  ⟨rfl, rfl, rfl, rfl⟩

/-- C7 (amended).  The Paper Enricher preserves `id`, `title`, `authors`,
`abstract`, `arxivUrl` and `publishedAt`, and always sets `content` to the
empty string (it does not leave `content` unchanged). -/
theorem processPaperWithLLM_preserves_base_fields_sets_empty_content
    (jsonParse : String → Option ExtractedJson) (outcome : LlmResult) (paper : ArxivPaper) :
    (processPaperWithLLM jsonParse outcome paper).id = paper.id
    ∧ (processPaperWithLLM jsonParse outcome paper).title = paper.title
    ∧ (processPaperWithLLM jsonParse outcome paper).authors = paper.authors
    ∧ (processPaperWithLLM jsonParse outcome paper).abstract = paper.abstract
    ∧ (processPaperWithLLM jsonParse outcome paper).arxivUrl = paper.arxivUrl
    ∧ (processPaperWithLLM jsonParse outcome paper).publishedAt = paper.publishedAt
    ∧ (processPaperWithLLM jsonParse outcome paper).content = some "" := by
  cases outcome <;> exact ⟨rfl, rfl, rfl, rfl, rfl, rfl, rfl⟩

/-- A freshly parsed paper, as used in the C7 counterexample: its `content`
is unset (`none`). -/
def paperC7 : ArxivPaper :=
  { id := "2501.00001v1", title := "T", authors := ["A"],
    abstract := "long enough abstract", arxivUrl := "http://arxiv.org/abs/2501.00001v1",
    publishedAt := "2025-01-01T00:00:00Z" }

/-- C7 (counterexample).  The claim says `content` is the same in the
returned paper as in the input; on a freshly parsed paper (whose `content`
is unset) the Enricher returns `content = some ""`, so the claim fails. -/
theorem processPaperWithLLM_content_changed :
    (processPaperWithLLM (fun _ => none) LlmResult.throws paperC7).content
      ≠ paperC7.content := by
  decide

/-- C10.  When the LLM response parses as JSON, a field that is absent or
present with the falsy empty string is replaced by its fixed default, and no
enrichment field of the returned paper is ever the empty string. -/
theorem processPaperWithLLM_falsy_fields_defaulted
    (jsonParse : String → Option ExtractedJson) (rc : String) (ext : ExtractedJson)
    (paper : ArxivPaper) (hparse : jsonParse (cleanResponse rc) = some ext) :
    ((ext.tag = none ∨ ext.tag = some "") →
      (processPaperWithLLM jsonParse (LlmResult.response (some rc)) paper).tag = defaultTag)
    ∧ ((ext.question = none ∨ ext.question = some "") →
      (processPaperWithLLM jsonParse (LlmResult.response (some rc)) paper).question
        = defaultQuestion)
    ∧ ((ext.answer = none ∨ ext.answer = some "") →
      (processPaperWithLLM jsonParse (LlmResult.response (some rc)) paper).answer
        = defaultAnswer)
    ∧ ((ext.bet = none ∨ ext.bet = some "") →
      (processPaperWithLLM jsonParse (LlmResult.response (some rc)) paper).bet = defaultBet)
    ∧ (processPaperWithLLM jsonParse (LlmResult.response (some rc)) paper).tag ≠ ""
    ∧ (processPaperWithLLM jsonParse (LlmResult.response (some rc)) paper).question ≠ ""
    ∧ (processPaperWithLLM jsonParse (LlmResult.response (some rc)) paper).answer ≠ ""
    ∧ (processPaperWithLLM jsonParse (LlmResult.response (some rc)) paper).bet ≠ "" := by
  have hdt : defaultTag ≠ "" := by decide
  have hdq : defaultQuestion ≠ "" := by decide
  have hda : defaultAnswer ≠ "" := by decide
  have hdb : defaultBet ≠ "" := by decide
  refine ⟨?_, ?_, ?_, ?_, ?_, ?_, ?_, ?_⟩ <;>
    simp only [processPaperWithLLM, hparse] <;>
    first
      | (intro h; exact jsOr_falsy _ _ h)
      | exact jsOr_ne_empty _ _ hdt
      | exact jsOr_ne_empty _ _ hdq
      | exact jsOr_ne_empty _ _ hda
      | exact jsOr_ne_empty _ _ hdb

/-- The parse oracle of the C10 witness: on the cleaned witness response it
yields an object with an empty `tag`, a missing `question`, and nonempty
`answer` and `bet`. -/
def jsonParseC10 : String → Option ExtractedJson := fun s =>
  if s = "\x7b\"tag\":\"\"\x7d" then
    some { tag := some "", question := none, answer := some "A real", bet := some "B real" }
  else none

def extC10 : ExtractedJson :=
  { tag := some "", question := none, answer := some "A real", bet := some "B real" }

/-- Witness for C10 at a concrete response wrapped in a code fence. -/
theorem processPaperWithLLM_falsy_fields_defaulted_witness :
    (processPaperWithLLM jsonParseC10
        (LlmResult.response (some ("\x60\x60\x60json\n\x7b\"tag\":\"\"\x7d\n\x60\x60\x60")))
        paperC7).tag = defaultTag
    ∧ (processPaperWithLLM jsonParseC10
        (LlmResult.response (some ("\x60\x60\x60json\n\x7b\"tag\":\"\"\x7d\n\x60\x60\x60")))
        paperC7).question = defaultQuestion := by
  have h := processPaperWithLLM_falsy_fields_defaulted jsonParseC10
    "\x60\x60\x60json\n\x7b\"tag\":\"\"\x7d\n\x60\x60\x60" extC10 paperC7 (by decide)
  exact ⟨h.1 (Or.inr rfl), h.2.1 (Or.inl rfl)⟩

/-! ## Claim theorems: Aggregation endpoint -/

/-- C4.  The `hasMore` field of the `GET /papers` envelope is `true` exactly
when the number of returned papers is at least the requested limit. -/
theorem papersGET_hasMore_iff_length_ge_limit (now : String) (randId : Nat → String)
    (getTime : SortTime) (fetch : String → Option String)
    (jsonParse : String → Option ExtractedJson) (llm : ArxivPaper → LlmResult)
    (limitParam offsetParam : Option Nat) :
    (papersGET now randId getTime fetch jsonParse llm limitParam offsetParam).hasMore = true
      ↔ limitParam.getD 30
          ≤ (papersGET now randId getTime fetch jsonParse llm limitParam offsetParam).papers.length := by
  simp [papersGET]

/-! ## Claim theorems: Entry Parser discard rule -/

/-- C5.  An entry whose whitespace-normalised abstract is at most 100
characters long is not emitted: the entry-loop step leaves the accumulated
paper list unchanged. -/
theorem entryStep_discards_short_abstract (now : String) (randId : Nat → String)
    (st : FetchState) (e : List Char)
    (h : (parseEntry now (randId st.rand) e).abstract.length ≤ 100) :
    (entryStep now randId st e).papers = st.papers := by
  have hlt : ¬ (100 < (parseEntry now (randId st.rand) e).abstract.length) := by omega
  simp [entryStep, hlt]

/-- A raw entry with a short (≤ 100 characters) abstract. -/
def shortEntry : List Char :=
  "<id>http://arxiv.org/abs/0001.00001v1</id><summary>too short</summary></entry>".data

/-- Witness for C5: the short entry is dropped from an empty state. -/
theorem entryStep_discards_short_abstract_witness :
    (parseEntry "2025-01-01" ((fun _ => "r") (FetchState.rand ⟨[], [], 0⟩)) shortEntry).abstract.length ≤ 100
    ∧ (entryStep "2025-01-01" (fun _ => "r") ⟨[], [], 0⟩ shortEntry).papers
        = FetchState.papers ⟨[], [], 0⟩ :=
  ⟨by decide,
   entryStep_discards_short_abstract "2025-01-01" (fun _ => "r") ⟨[], [], 0⟩ shortEntry (by decide)⟩

/-! ## Lemmas about the sort model -/

theorem jsMergeGo_perm (le : ArxivPaper → ArxivPaper → Bool) (fuel : Nat) :
    ∀ (xs ys : List ArxivPaper), (jsMergeGo le fuel xs ys).Perm (xs ++ ys) := by
  induction fuel with
  | zero =>
    intro xs ys
    cases xs <;> cases ys <;> simp [jsMergeGo]
  | succ fuel ih =>
    intro xs ys
    cases xs with
    | nil => simp [jsMergeGo]
    | cons x xs =>
      cases ys with
      | nil => simp [jsMergeGo]
      | cons y ys =>
        by_cases hxy : le x y = true
        · simpa [jsMergeGo, hxy] using (ih xs (y :: ys)).cons x
        · have h2 := (ih (x :: xs) ys).cons y
          have h3 : ((x :: xs) ++ y :: ys).Perm (y :: ((x :: xs) ++ ys)) := List.perm_middle
          simpa [jsMergeGo, hxy] using h2.trans h3.symm

theorem jsMerge_perm (le : ArxivPaper → ArxivPaper → Bool) (xs ys : List ArxivPaper) :
    (jsMerge le xs ys).Perm (xs ++ ys) :=
  jsMergeGo_perm le (xs.length + ys.length) xs ys

theorem jsMergeSortGo_perm (le : ArxivPaper → ArxivPaper → Bool) (fuel : Nat) :
    ∀ (l : List ArxivPaper), (jsMergeSortGo le fuel l).Perm l := by
  induction fuel with
  | zero =>
    intro l
    match l with
    | [] => simp [jsMergeSortGo]
    | [a] => simp [jsMergeSortGo]
    | a :: b :: rest => simp [jsMergeSortGo]
  | succ fuel ih =>
    intro l
    match l with
    | [] => simp [jsMergeSortGo]
    | [a] => simp [jsMergeSortGo]
    | a :: b :: rest =>
      have hmg := jsMerge_perm le
        (jsMergeSortGo le fuel ((a :: b :: rest).take ((a :: b :: rest).length / 2)))
        (jsMergeSortGo le fuel ((a :: b :: rest).drop ((a :: b :: rest).length / 2)))
      have happ := (ih ((a :: b :: rest).take ((a :: b :: rest).length / 2))).append
        (ih ((a :: b :: rest).drop ((a :: b :: rest).length / 2)))
      have hsplit := List.take_append_drop ((a :: b :: rest).length / 2) (a :: b :: rest)
      have hall := hmg.trans happ
      rw [hsplit] at hall
      simpa [jsMergeSortGo] using hall

theorem jsMergeSort_perm (le : ArxivPaper → ArxivPaper → Bool) (l : List ArxivPaper) :
    (jsMergeSort le l).Perm l :=
  jsMergeSortGo_perm le l.length l

theorem jsMergeGo_congr (le le2 : ArxivPaper → ArxivPaper → Bool) (fuel : Nat) :
    ∀ (xs ys : List ArxivPaper), (∀ a ∈ xs, ∀ b ∈ ys, le a b = le2 a b) →
      jsMergeGo le fuel xs ys = jsMergeGo le2 fuel xs ys := by
  induction fuel with
  | zero =>
    intro xs ys _
    cases xs <;> cases ys <;> simp [jsMergeGo]
  | succ fuel ih =>
    intro xs ys hag
    cases xs with
    | nil => simp [jsMergeGo]
    | cons x xs =>
      cases ys with
      | nil => simp [jsMergeGo]
      | cons y ys =>
        have hxy : le x y = le2 x y :=
          hag x (List.mem_cons_self x xs) y (List.mem_cons_self y ys)
        by_cases hc : le2 x y = true
        · have hrec := ih xs (y :: ys)
            (fun a ha b hb => hag a (List.mem_cons_of_mem x ha) b hb)
          simp [jsMergeGo, hxy, hc, hrec]
        · have hrec := ih (x :: xs) ys
            (fun a ha b hb => hag a ha b (List.mem_cons_of_mem y hb))
          simp [jsMergeGo, hxy, hc, hrec]

theorem jsMergeSortGo_congr (le le2 : ArxivPaper → ArxivPaper → Bool) (fuel : Nat) :
    ∀ (l : List ArxivPaper), (∀ a ∈ l, ∀ b ∈ l, le a b = le2 a b) →
      jsMergeSortGo le fuel l = jsMergeSortGo le2 fuel l := by
  induction fuel with
  | zero =>
    intro l _
    match l with
    | [] => simp [jsMergeSortGo]
    | [a] => simp [jsMergeSortGo]
    | a :: b :: rest => simp [jsMergeSortGo]
  | succ fuel ih =>
    intro l hag
    match l with
    | [] => simp [jsMergeSortGo]
    | [a] => simp [jsMergeSortGo]
    | a :: b :: rest =>
      have htake := ih ((a :: b :: rest).take ((a :: b :: rest).length / 2))
        (fun p hp q hq => hag p (List.mem_of_mem_take hp) q (List.mem_of_mem_take hq))
      have hdrop := ih ((a :: b :: rest).drop ((a :: b :: rest).length / 2))
        (fun p hp q hq => hag p (List.mem_of_mem_drop hp) q (List.mem_of_mem_drop hq))
      have hmerge := jsMergeGo_congr le le2
        ((jsMergeSortGo le2 fuel ((a :: b :: rest).take ((a :: b :: rest).length / 2))).length
          + (jsMergeSortGo le2 fuel ((a :: b :: rest).drop ((a :: b :: rest).length / 2))).length)
        (jsMergeSortGo le2 fuel ((a :: b :: rest).take ((a :: b :: rest).length / 2)))
        (jsMergeSortGo le2 fuel ((a :: b :: rest).drop ((a :: b :: rest).length / 2)))
        (fun p hp q hq => hag
          p (List.mem_of_mem_take ((jsMergeSortGo_perm le2 fuel _).mem_iff.mp hp))
          q (List.mem_of_mem_drop ((jsMergeSortGo_perm le2 fuel _).mem_iff.mp hq)))
      simp only [jsMergeSortGo, jsMerge]
      rw [htake, hdrop, hmerge]

theorem jsMergeSort_congr (le le2 : ArxivPaper → ArxivPaper → Bool) (l : List ArxivPaper)
    (hag : ∀ a ∈ l, ∀ b ∈ l, le a b = le2 a b) :
    jsMergeSort le l = jsMergeSort le2 l :=
  jsMergeSortGo_congr le le2 l.length l hag

theorem jsMergeGo_pairwise (le : ArxivPaper → ArxivPaper → Bool)
    (htrans : ∀ a b c, le a b = true → le b c = true → le a c = true)
    (htot : ∀ a b, le a b = true ∨ le b a = true) (fuel : Nat) :
    ∀ (xs ys : List ArxivPaper), xs.length + ys.length ≤ fuel →
      xs.Pairwise (fun a b => le a b = true) → ys.Pairwise (fun a b => le a b = true) →
      (jsMergeGo le fuel xs ys).Pairwise (fun a b => le a b = true) := by
  induction fuel with
  | zero =>
    intro xs ys hlen hxs hys
    cases xs with
    | nil => simpa [jsMergeGo] using hys
    | cons x xs =>
      cases ys with
      | nil => simpa [jsMergeGo] using hxs
      | cons y ys => simp at hlen
  | succ fuel ih =>
    intro xs ys hlen hxs hys
    cases xs with
    | nil => simpa [jsMergeGo] using hys
    | cons x xs =>
      cases ys with
      | nil => simpa [jsMergeGo] using hxs
      | cons y ys =>
        rw [List.pairwise_cons] at hxs hys
        by_cases hxy : le x y = true
        · have hrec := ih xs (y :: ys) (by simp at hlen ⊢; omega) hxs.2
            (List.pairwise_cons.mpr hys)
          have hhead : ∀ z ∈ jsMergeGo le fuel xs (y :: ys), le x z = true := by
            intro z hz
            have hz2 := (jsMergeGo_perm le fuel xs (y :: ys)).mem_iff.mp hz
            rcases List.mem_append.mp hz2 with hz3 | hz3
            · exact hxs.1 z hz3
            · rcases List.mem_cons.mp hz3 with rfl | hz4
              · exact hxy
              · exact htrans x y z hxy (hys.1 z hz4)
          simp only [jsMergeGo, hxy, if_true]
          exact List.pairwise_cons.mpr ⟨hhead, hrec⟩
        · have hyx : le y x = true := (htot x y).resolve_left hxy
          have hrec := ih (x :: xs) ys (by simp at hlen ⊢; omega)
            (List.pairwise_cons.mpr hxs) hys.2
          have hhead : ∀ z ∈ jsMergeGo le fuel (x :: xs) ys, le y z = true := by
            intro z hz
            have hz2 := (jsMergeGo_perm le fuel (x :: xs) ys).mem_iff.mp hz
            rcases List.mem_append.mp hz2 with hz3 | hz3
            · rcases List.mem_cons.mp hz3 with rfl | hz4
              · exact hyx
              · exact htrans y x z hyx (hxs.1 z hz4)
            · exact hys.1 z hz3
          simp only [jsMergeGo, hxy, if_false]
          exact List.pairwise_cons.mpr ⟨hhead, hrec⟩

theorem jsMergeSortGo_pairwise (le : ArxivPaper → ArxivPaper → Bool)
    (htrans : ∀ a b c, le a b = true → le b c = true → le a c = true)
    (htot : ∀ a b, le a b = true ∨ le b a = true) (fuel : Nat) :
    ∀ (l : List ArxivPaper), l.length ≤ fuel →
      (jsMergeSortGo le fuel l).Pairwise (fun a b => le a b = true) := by
  induction fuel with
  | zero =>
    intro l hlen
    match l with
    | [] => simp [jsMergeSortGo]
    | [a] => simp [jsMergeSortGo]
    | a :: b :: rest => simp at hlen
  | succ fuel ih =>
    intro l hlen
    match l with
    | [] => simp [jsMergeSortGo]
    | [a] => simp [jsMergeSortGo]
    | a :: b :: rest =>
      have hlen2 : (a :: b :: rest).length = rest.length + 2 := by simp
      have htake : ((a :: b :: rest).take ((a :: b :: rest).length / 2)).length ≤ fuel := by
        simp only [List.length_take]
        simp at hlen
        omega
      have hdrop : ((a :: b :: rest).drop ((a :: b :: rest).length / 2)).length ≤ fuel := by
        simp only [List.length_drop]
        simp at hlen
        omega
      have h1 := ih _ htake
      have h2 := ih _ hdrop
      have := jsMergeGo_pairwise le htrans htot
        ((jsMergeSortGo le fuel ((a :: b :: rest).take ((a :: b :: rest).length / 2))).length
          + (jsMergeSortGo le fuel ((a :: b :: rest).drop ((a :: b :: rest).length / 2))).length)
        _ _ (Nat.le_refl _) h1 h2
      simpa [jsMergeSortGo, jsMerge] using this

theorem jsMergeSort_pairwise (le : ArxivPaper → ArxivPaper → Bool)
    (htrans : ∀ a b c, le a b = true → le b c = true → le a c = true)
    (htot : ∀ a b, le a b = true ∨ le b a = true) (l : List ArxivPaper) :
    (jsMergeSort le l).Pairwise (fun a b => le a b = true) :=
  jsMergeSortGo_pairwise le htrans htot l.length l (Nat.le_refl _)

/-! ## Lemmas about the fetch loop and the dedup merge -/

theorem entryStep_eq (now : String) (randId : Nat → String) (st : FetchState)
    (e : List Char) :
    entryStep now randId st e =
      { papers := (dedupStep (st.papers, st.seen) (parseEntry now (randId st.rand) e)).1,
        seen := (dedupStep (st.papers, st.seen) (parseEntry now (randId st.rand) e)).2,
        rand := st.rand + 1 } := by
  simp only [entryStep, dedupStep]
  split <;> rfl

theorem parsedFrom_append (now : String) (randId : Nat → String) :
    ∀ (l1 l2 : List (List Char)) (k : Nat),
      parsedFrom now randId k (l1 ++ l2)
        = parsedFrom now randId k l1 ++ parsedFrom now randId (k + l1.length) l2 := by
  intro l1
  induction l1 with
  | nil => intro l2 k; simp [parsedFrom]
  | cons e es ih =>
    intro l2 k
    simp only [List.cons_append, parsedFrom, List.length_cons, List.append_eq]
    rw [ih]
    have harith : k + 1 + es.length = k + (es.length + 1) := by omega
    rw [harith]

theorem foldl_entryStep_eq (now : String) (randId : Nat → String) :
    ∀ (es : List (List Char)) (st : FetchState),
      List.foldl (entryStep now randId) st es =
        { papers := (List.foldl dedupStep (st.papers, st.seen)
            (parsedFrom now randId st.rand es)).1,
          seen := (List.foldl dedupStep (st.papers, st.seen)
            (parsedFrom now randId st.rand es)).2,
          rand := st.rand + es.length } := by
  intro es
  induction es with
  | nil => intro st; simp [parsedFrom]
  | cons e es ih =>
    intro st
    simp only [List.foldl_cons, parsedFrom]
    rw [ih, entryStep_eq]
    simp only [List.length_cons]
    congr 1
    omega

theorem fetchLoop_eq_some (now : String) (randId : Nat → String)
    (fetch : String → Option String) :
    ∀ (qs : List String) (st st2 : FetchState),
      fetchLoop now randId fetch qs st = some st2 →
      st2 = { papers := (List.foldl dedupStep (st.papers, st.seen)
                (parsedFrom now randId st.rand (allEntries fetch qs))).1,
              seen := (List.foldl dedupStep (st.papers, st.seen)
                (parsedFrom now randId st.rand (allEntries fetch qs))).2,
              rand := st.rand + (allEntries fetch qs).length } := by
  intro qs
  induction qs with
  | nil =>
    intro st st2 h
    simp only [fetchLoop, Option.some.injEq] at h
    simp [allEntries, parsedFrom, ← h]
  | cons q qs ih =>
    intro st st2 h
    simp only [fetchLoop] at h
    cases hq : fetch (arxivBaseUrl ++ "?" ++ q) with
    | none => rw [hq] at h; exact absurd h (by simp)
    | some xmlText =>
      rw [hq] at h
      have h2 := ih _ _ h
      have hqe : allEntries fetch (q :: qs)
          = entriesOf xmlText.data ++ allEntries fetch qs := by
        simp [allEntries, queryEntries, hq]
      rw [h2, foldl_entryStep_eq, hqe, parsedFrom_append, List.foldl_append]
      simp
      omega

theorem fetchLoop_none_of_fail (now : String) (randId : Nat → String)
    (fetch : String → Option String) :
    ∀ (qs : List String) (st : FetchState),
      (∃ q ∈ qs, fetch (arxivBaseUrl ++ "?" ++ q) = none) →
      fetchLoop now randId fetch qs st = none := by
  intro qs
  induction qs with
  | nil => intro st h; simp at h
  | cons q qs ih =>
    intro st h
    simp only [fetchLoop]
    cases hq : fetch (arxivBaseUrl ++ "?" ++ q) with
    | none => rfl
    | some xmlText =>
      rcases h with ⟨q2, hq2mem, hq2⟩
      rcases List.mem_cons.mp hq2mem with rfl | hmem
      · exact absurd hq2 (by simp [hq])
      · exact ih _ ⟨q2, hmem, hq2⟩

/-- The state invariant of the dedup merge, relative to the list `done` of
candidates already processed: `seen` holds exactly the ids of the collected
papers, collected ids are pairwise distinct, every collected paper is the
first eligible candidate with its id, and every eligible processed candidate
has its id recorded. -/
def DedupInv (papers : List ArxivPaper) (seen : List String) (done : List ArxivPaper) : Prop :=
  (∀ i, i ∈ seen ↔ ∃ p, p ∈ papers ∧ p.id = i)
  ∧ (papers.map (·.id)).Nodup
  ∧ (∀ p ∈ papers, firstEligible done p.id = some p)
  ∧ (∀ q ∈ done, 100 < q.abstract.length → q.id ∈ seen)


theorem dedupStep_inv (papers : List ArxivPaper) (seen : List String)
    (done : List ArxivPaper) (c : ArxivPaper) (hinv : DedupInv papers seen done) :
    DedupInv (dedupStep (papers, seen) c).1 (dedupStep (papers, seen) c).2 (done ++ [c]) := by
  obtain ⟨h1, h2, h3, h4⟩ := hinv
  have hfirst_keep : ∀ p ∈ papers, firstEligible (done ++ [c]) p.id = some p := by
    intro p hp
    have hfe := h3 p hp
    unfold firstEligible at hfe ⊢
    rw [List.filter_append]
    rcases List.head?_eq_some_iff.mp hfe with ⟨ys, hys⟩
    rw [hys]
    simp
  by_cases hc : (!(seen.contains c.id) && decide (100 < c.abstract.length)) = true
  · have hcnotseen : ¬ (c.id ∈ seen) := by
      have hb := ((Bool.and_eq_true _ _).mp hc).1
      simp at hb
      exact hb
    have hclen : 100 < c.abstract.length :=
      of_decide_eq_true ((Bool.and_eq_true _ _).mp hc).2
    have hstep : dedupStep (papers, seen) c = (papers ++ [c], c.id :: seen) := by
      simp only [dedupStep]
      rw [if_pos hc]
    rw [hstep]
    refine ⟨?_, ?_, ?_, ?_⟩
    · intro i
      constructor
      · intro hi
        rcases List.mem_cons.mp hi with rfl | hi2
        · exact ⟨c, by simp⟩
        · rcases (h1 i).mp hi2 with ⟨p, hp, hpid⟩
          exact ⟨p, List.mem_append_left _ hp, hpid⟩
      · rintro ⟨p, hp, hpid⟩
        rcases List.mem_append.mp hp with hp2 | hp2
        · exact List.mem_cons_of_mem _ ((h1 i).mpr ⟨p, hp2, hpid⟩)
        · simp at hp2
          subst hp2
          subst hpid
          exact List.mem_cons_self _ _
    · have hcid_not : ¬ (c.id ∈ papers.map (·.id)) := by
        intro hmem
        rcases List.mem_map.mp hmem with ⟨p, hp, hpid⟩
        exact hcnotseen ((h1 c.id).mpr ⟨p, hp, hpid⟩)
      simp only [List.map_append, List.map_cons, List.map_nil]
      rw [List.nodup_append]
      refine ⟨h2, List.nodup_singleton _, ?_⟩
      intro i hi hi2
      simp at hi2
      subst hi2
      exact hcid_not hi
    · intro p hp
      rcases List.mem_append.mp hp with hp2 | hp2
      · exact hfirst_keep p hp2
      · simp at hp2
        subst hp2
        unfold firstEligible
        rw [List.filter_append]
        have hdone_nil : List.filter
            (fun q => q.id == p.id && decide (100 < q.abstract.length)) done = [] := by
          rw [List.filter_eq_nil_iff]
          intro q hq hqc
          rcases (Bool.and_eq_true _ _).mp hqc with ⟨hqid, hqlen⟩
          have hqid2 : q.id = p.id := by simpa using hqid
          have := h4 q hq (of_decide_eq_true hqlen)
          rw [hqid2] at this
          exact hcnotseen this
        rw [hdone_nil]
        simp [hclen]
    · intro q hq hqlen
      rcases List.mem_append.mp hq with hq2 | hq2
      · exact List.mem_cons_of_mem _ (h4 q hq2 hqlen)
      · simp at hq2
        subst hq2
        exact List.mem_cons_self _ _
  · have hstep : dedupStep (papers, seen) c = (papers, seen) := by
      simp only [dedupStep]
      rw [if_neg hc]
    rw [hstep]
    refine ⟨h1, h2, hfirst_keep, ?_⟩
    intro q hq hqlen
    rcases List.mem_append.mp hq with hq2 | hq2
    · exact h4 q hq2 hqlen
    · simp at hq2
      subst hq2
      have hb : ¬ ((!(seen.contains q.id)) = true ∧ decide (100 < q.abstract.length) = true) := by
        intro hand
        exact hc ((Bool.and_eq_true _ _).mpr hand)
      rcases Decidable.not_and_iff_or_not.mp hb with hb2 | hb2
      · simp at hb2
        exact hb2
      · exact absurd (decide_eq_true hqlen) hb2

theorem foldl_dedupStep_inv :
    ∀ (l : List ArxivPaper) (papers : List ArxivPaper) (seen : List String)
      (done : List ArxivPaper), DedupInv papers seen done →
      DedupInv (List.foldl dedupStep (papers, seen) l).1
        (List.foldl dedupStep (papers, seen) l).2 (done ++ l) := by
  intro l
  induction l with
  | nil => intro papers seen done h; simpa using h
  | cons c l ih =>
    intro papers seen done h
    have hstep := dedupStep_inv papers seen done c h
    have hfold := ih (dedupStep (papers, seen) c).1 (dedupStep (papers, seen) c).2
      (done ++ [c]) hstep
    simpa [List.append_assoc] using hfold

theorem dedupInv_init : DedupInv [] [] [] := by
  refine ⟨?_, ?_, ?_, ?_⟩ <;> simp

/-! ## Claim theorems: Multi-Query Fetcher -/

/-- C1 (amended).  If any individual topic query's network fetch fails, the
exception escapes the whole-loop `try`, and the Multi-Query Fetcher returns
the empty list — discarding papers already collected from the other
queries.  (The claim said a failing query leaves the other queries' results
intact; the `catch` wraps the entire loop, so it does not.) -/
theorem searchArxivPapers_empty_of_any_query_failure (now : String) (randId : Nat → String)
    (getTime : SortTime) (fetch : String → Option String) (maxResults offset : Nat)
    (h : ∃ q ∈ searchQueries maxResults offset, fetch (arxivBaseUrl ++ "?" ++ q) = none) :
    searchArxivPapers now randId getTime fetch maxResults offset = [] := by
  unfold searchArxivPapers
  rw [fetchLoop_none_of_fail now randId fetch _ _ h]

/-- An abstract of 101 characters, long enough to pass the discard rule. -/
def absLong : String := String.mk (List.replicate 101 'a')

/-- A well-formed raw entry with the given id suffix and published value. -/
def entryXml (pid pub : String) : String :=
  "<entry><id>http://arxiv.org/abs/" ++ pid ++ "</id><published>" ++ pub
    ++ "</published><summary>" ++ absLong ++ "</summary></entry>"

/-- The URL of the first topic query for `limit = 10`, `offset = 0`. -/
def url1 : String := arxivBaseUrl ++ "?" ++ ((searchQueries 10 0).getD 0 "")

/-- The URL of the second topic query for `limit = 10`, `offset = 0`. -/
def url2 : String := arxivBaseUrl ++ "?" ++ ((searchQueries 10 0).getD 1 "")

/-- A response for the second query holding one valid entry. -/
def xmlC1 : String := entryXml "c100" "1"

/-- A fetch oracle where the first topic query throws and the second returns
one valid entry. -/
def fetchFailC1 : String → Option String := fun u =>
  if u = url1 then none else if u = url2 then some xmlC1 else some ""

/-- The same oracle except that the first query merely returns no entries. -/
def fetchOkC1 : String → Option String := fun u =>
  if u = url1 then some "" else if u = url2 then some xmlC1 else some ""

/-- A date oracle parsing the two timestamps used by the concrete runs. -/
def getTimeC3 : SortTime := fun s =>
  if s = "1" then some 1 else if s = "5" then some 5 else none

set_option maxRecDepth 1000000 in
/-- C1 (counterexample).  With the first query failing, the fetcher returns
the empty list even though the second query holds a valid paper — as shown
by the identical run in which the first query merely returns no entries.
The claim said the failing query contributes nothing but the other queries'
papers are still returned; instead the whole result is dropped. -/
theorem searchArxivPapers_failing_query_aborts_all :
    searchArxivPapers "NOW" (fun _ => "r") getTimeC3 fetchFailC1 10 0 = []
    ∧ searchArxivPapers "NOW" (fun _ => "r") getTimeC3 fetchOkC1 10 0 ≠ [] := by
  constructor
  · decide
  · decide

set_option maxRecDepth 1000000 in
/-- Witness for C1 (amended) at the concrete failing fetch. -/
theorem searchArxivPapers_empty_of_any_query_failure_witness :
    (∃ q ∈ searchQueries 10 0, fetchFailC1 (arxivBaseUrl ++ "?" ++ q) = none)
    ∧ searchArxivPapers "NOW" (fun _ => "r") getTimeC3 fetchFailC1 10 0 = [] :=
  ⟨by decide,
   searchArxivPapers_empty_of_any_query_failure "NOW" (fun _ => "r") getTimeC3 fetchFailC1
     10 0 (by decide)⟩

/-- C2.  The returned list never holds two papers with the same id, and each
returned paper is the first candidate across the queries, in processing
order, that has its id and passes the abstract filter (first occurrence
wins). -/
theorem searchArxivPapers_nodup_ids_first_wins (now : String) (randId : Nat → String)
    (getTime : SortTime) (fetch : String → Option String) (maxResults offset : Nat) :
    ((searchArxivPapers now randId getTime fetch maxResults offset).map (·.id)).Nodup
    ∧ ∀ p ∈ searchArxivPapers now randId getTime fetch maxResults offset,
        firstEligible (candidates now randId fetch maxResults offset) p.id = some p := by
  unfold searchArxivPapers
  cases hfl : fetchLoop now randId fetch (searchQueries maxResults offset)
      { papers := [], seen := [], rand := 0 } with
  | none => simp
  | some st =>
    have hst := fetchLoop_eq_some now randId fetch _ _ _ hfl
    have hinv := foldl_dedupStep_inv
      (parsedFrom now randId 0 (allEntries fetch (searchQueries maxResults offset)))
      [] [] [] dedupInv_init
    rw [List.nil_append] at hinv
    obtain ⟨-, hnodup, hfirst, -⟩ := hinv
    have hpap : st.papers = (List.foldl dedupStep ([], [])
        (parsedFrom now randId 0 (allEntries fetch (searchQueries maxResults offset)))).1 := by
      rw [hst]
    have hperm := jsMergeSort_perm (sortLe getTime) st.papers
    constructor
    · have hnodup2 : (st.papers.map (·.id)).Nodup := by rw [hpap]; exact hnodup
      have hnodup3 : ((jsMergeSort (sortLe getTime) st.papers).map (·.id)).Nodup :=
        (hperm.map (·.id)).symm.nodup hnodup2
      rw [List.map_take]
      exact (List.take_sublist _ _).nodup hnodup3
    · intro p hp
      have hp1 : p ∈ jsMergeSort (sortLe getTime) st.papers := List.mem_of_mem_take hp
      have hp2 : p ∈ st.papers := hperm.mem_iff.mp hp1
      rw [hpap] at hp2
      have hfe := hfirst p hp2
      simpa [candidates] using hfe

/-- The duplicated-id response of the C2 witness: the same arXiv id appears
in the first and the second query, with different titles. -/
def xmlC2a : String :=
  "<entry><title>First</title><id>http://arxiv.org/abs/d200</id><published>1</published><summary>"
    ++ absLong ++ "</summary></entry>"

def xmlC2b : String :=
  "<entry><title>Second</title><id>http://arxiv.org/abs/d200</id><published>5</published><summary>"
    ++ absLong ++ "</summary></entry>"

def fetchC2 : String → Option String := fun u =>
  if u = url1 then some xmlC2a else if u = url2 then some xmlC2b else some ""

/-- The paper the C2 witness expects: the first occurrence of id `d200`. -/
def paperC2 : ArxivPaper :=
  { id := "d200", title := "First", authors := [], abstract := absLong,
    arxivUrl := "http://arxiv.org/abs/d200", publishedAt := "1" }

set_option maxRecDepth 1000000 in
/-- Witness for C2: with the same id in two queries, the paper from the
first query is kept and its first-eligible-candidate characterisation holds. -/
theorem searchArxivPapers_nodup_ids_first_wins_witness :
    paperC2 ∈ searchArxivPapers "NOW" (fun _ => "r") getTimeC3 fetchC2 10 0
    ∧ firstEligible (candidates "NOW" (fun _ => "r") fetchC2 10 0) paperC2.id = some paperC2 :=
  ⟨by decide,
   (searchArxivPapers_nodup_ids_first_wins "NOW" (fun _ => "r") getTimeC3 fetchC2 10 0).2
     paperC2 (by decide)⟩

/-- A total, transitive stand-in for the recency comparator, agreeing with
`sortLe` on papers whose `publishedAt` parses. -/
def recencyLe (getTime : SortTime) (a b : ArxivPaper) : Bool :=
  decide ((getTime b.publishedAt).getD 0 ≤ (getTime a.publishedAt).getD 0)

theorem recencyLe_trans (getTime : SortTime) :
    ∀ a b c, recencyLe getTime a b = true → recencyLe getTime b c = true →
      recencyLe getTime a c = true := by
  intro a b c hab hbc
  simp only [recencyLe, decide_eq_true_eq] at *
  omega

theorem recencyLe_total (getTime : SortTime) :
    ∀ a b, recencyLe getTime a b = true ∨ recencyLe getTime b a = true := by
  intro a b
  simp only [recencyLe, decide_eq_true_eq]
  omega

/-- C3 (amended).  The returned page never exceeds the requested count, and
whenever every merged paper's `publishedAt` parses as a timestamp the page
is sorted in the comparator's descending order.  (When some value does not
parse, the comparator returns `NaN` — treated as "equal" by `SortCompare` —
and even parseable papers can come out of order, so the unconditional claim
fails.) -/
theorem searchArxivPapers_le_limit_sorted_of_parseable (now : String) (randId : Nat → String)
    (getTime : SortTime) (fetch : String → Option String) (maxResults offset : Nat) :
    (searchArxivPapers now randId getTime fetch maxResults offset).length ≤ maxResults
    ∧ ((∀ p ∈ mergedPapers now randId fetch maxResults offset,
          (getTime p.publishedAt).isSome = true) →
        (searchArxivPapers now randId getTime fetch maxResults offset).Pairwise
          (fun a b => sortLe getTime a b = true)) := by
  unfold searchArxivPapers
  cases hfl : fetchLoop now randId fetch (searchQueries maxResults offset)
      { papers := [], seen := [], rand := 0 } with
  | none => simp
  | some st =>
    dsimp only
    constructor
    · exact List.length_take_le _ _
    · intro h
      have hpap : ∀ p ∈ st.papers, (getTime p.publishedAt).isSome = true := by
        intro p hp
        apply h
        simp only [mergedPapers, hfl]
        exact hp
      have hag : ∀ a ∈ st.papers, ∀ b ∈ st.papers,
          sortLe getTime a b = recencyLe getTime a b := by
        intro a ha b hb
        rcases Option.isSome_iff_exists.mp (hpap a ha) with ⟨ta, hta⟩
        rcases Option.isSome_iff_exists.mp (hpap b hb) with ⟨tb, htb⟩
        simp [sortLe, recencyLe, hta, htb]
      have hcongr := jsMergeSort_congr (sortLe getTime) (recencyLe getTime) st.papers hag
      have hsorted := jsMergeSort_pairwise (recencyLe getTime) (recencyLe_trans getTime)
        (recencyLe_total getTime) st.papers
      rw [hcongr]
      have htake := List.Pairwise.sublist (List.take_sublist maxResults _) hsorted
      refine List.Pairwise.imp_of_mem ?_ htake
      intro a b ha hb hab
      have ha2 : a ∈ st.papers :=
        (jsMergeSort_perm (recencyLe getTime) st.papers).mem_iff.mp (List.mem_of_mem_take ha)
      have hb2 : b ∈ st.papers :=
        (jsMergeSort_perm (recencyLe getTime) st.papers).mem_iff.mp (List.mem_of_mem_take hb)
      rw [hag a ha2 b hb2]
      exact hab

/-- The query-one response of the C3 counterexample: times 1, unparsable,
unparsable, 5 in merge order. -/
def xmlC3 : String :=
  entryXml "a300" "1" ++ entryXml "x300" "zz" ++ entryXml "y300" "ww" ++ entryXml "b300" "5"

def fetchC3 : String → Option String := fun u =>
  if u = url1 then some xmlC3 else some ""

set_option maxRecDepth 1000000 in
/-- C3 (counterexample).  With two unparsable `publishedAt` values between
two parseable ones, the returned page keeps the older parseable paper
(time 1) before the newer one (time 5): the output is not sorted descending
— not even with respect to the comparator's own lenient order — so no
deterministic placement rule for unparsable values can make the claim true. -/
theorem searchArxivPapers_unparsable_breaks_descending_order :
    (searchArxivPapers "NOW" (fun _ => "r") getTimeC3 fetchC3 10 0).map
        (fun p => getTimeC3 p.publishedAt) = [some 1, none, none, some 5]
    ∧ ¬ (searchArxivPapers "NOW" (fun _ => "r") getTimeC3 fetchC3 10 0).Pairwise
        (fun a b => sortLe getTimeC3 a b = true) := by
  constructor
  · decide
  · decide

/-- The all-parseable response of the C3 witness. -/
def xmlC3w : String := entryXml "w301" "1" ++ entryXml "w302" "5"

def fetchC3w : String → Option String := fun u =>
  if u = url1 then some xmlC3w else some ""

set_option maxRecDepth 1000000 in
/-- Witness for C3 (amended) at a run whose timestamps all parse. -/
theorem searchArxivPapers_le_limit_sorted_of_parseable_witness :
    (∀ p ∈ mergedPapers "NOW" (fun _ => "r") fetchC3w 10 0,
      (getTimeC3 p.publishedAt).isSome = true)
    ∧ (searchArxivPapers "NOW" (fun _ => "r") getTimeC3 fetchC3w 10 0).length ≤ 10
    ∧ (searchArxivPapers "NOW" (fun _ => "r") getTimeC3 fetchC3w 10 0).Pairwise
        (fun a b => sortLe getTimeC3 a b = true) :=
  ⟨by decide,
   (searchArxivPapers_le_limit_sorted_of_parseable "NOW" (fun _ => "r") getTimeC3 fetchC3w
     10 0).1,
   (searchArxivPapers_le_limit_sorted_of_parseable "NOW" (fun _ => "r") getTimeC3 fetchC3w
     10 0).2 (by decide)⟩

/-! ## Claim theorems: Content Fetcher -/

theorem method1_some_gt (r : FetchOutcome (List Nat × String)) (t : String)
    (h : method1 r = some t) : 1000 < t.length := by
  cases r with
  | throws => simp [method1] at h
  | notOk => simp [method1] at h
  | ok p =>
    obtain ⟨bytes, text⟩ := p
    simp only [method1] at h
    split_ifs at h with hg hr hl
    · exact (Option.some.inj h) ▸ hl
  
theorem method2_some_gt (r : FetchOutcome String) (t : String)
    (h : method2 r = some t) : 1000 < t.length := by
  cases r with
  | throws => simp [method2] at h
  | notOk => simp [method2] at h
  | ok html =>
    simp only [method2] at h
    split_ifs at h with hl
    · exact (Option.some.inj h) ▸ hl

theorem method3_some_gt (r : FetchOutcome String) (t : String)
    (h : method3 r = some t) : 1000 < t.length := by
  cases r with
  | throws => simp [method3] at h
  | notOk => simp [method3] at h
  | ok latex =>
    simp only [method3] at h
    split_ifs at h with hl
    · exact (Option.some.inj h) ▸ hl

theorem placeholderMessage_length_pos (arxivId : String) :
    0 < (placeholderMessage arxivId).length := by
  unfold placeholderMessage pdfLink
  simp only [String.length_append]
  have h0 : 0 < ("Full paper content extraction is currently unavailable for this paper.\n\nPaper ID: " : String).length := by
    decide
  omega

theorem contentErrorMessage_length_pos (arxivId : String) :
    0 < (contentErrorMessage arxivId).length := by
  unfold contentErrorMessage
  simp only [String.length_append]
  have h0 : 0 < ("Error fetching paper content for " : String).length := by decide
  omega

/-- Every return path of the Content Fetcher yields a nonempty string. -/
theorem fetchFullPaperContent_length_pos (arxivId : String) (inp : ContentFetchInput) :
    0 < (fetchFullPaperContent arxivId inp).length := by
  cases hb : inp.outerThrows with
  | true =>
    simp only [fetchFullPaperContent, hb, if_true]
    exact contentErrorMessage_length_pos arxivId
  | false =>
    simp only [fetchFullPaperContent, hb, Bool.false_eq_true, if_false]
    cases hm1 : method1 inp.textReq with
    | some t =>
      dsimp only
      have := method1_some_gt _ _ hm1
      omega
    | none =>
      dsimp only
      cases hm2 : method2 inp.htmlReq with
      | some t =>
        dsimp only
        have := method2_some_gt _ _ hm2
        omega
      | none =>
        dsimp only
        cases hm3 : method3 inp.latexReq with
        | some t =>
          dsimp only
          have := method3_some_gt _ _ hm3
          omega
        | none => exact placeholderMessage_length_pos arxivId

/-- C8.  When each of the three strategies fails to produce more than 1000
characters of plausible text, the Content Fetcher does not raise: it returns
exactly the placeholder message, which contains the paper id and the direct
PDF link. -/
theorem fetchFullPaperContent_all_fail_placeholder (arxivId : String)
    (inp : ContentFetchInput) (h1 : method1 inp.textReq = none)
    (h2 : method2 inp.htmlReq = none) (h3 : method3 inp.latexReq = none)
    (h4 : inp.outerThrows = false) :
    fetchFullPaperContent arxivId inp = placeholderMessage arxivId
    ∧ (∃ l r, fetchFullPaperContent arxivId inp = l ++ arxivId ++ r)
    ∧ (∃ l r, fetchFullPaperContent arxivId inp = l ++ pdfLink arxivId ++ r) := by
  have heq : fetchFullPaperContent arxivId inp = placeholderMessage arxivId := by
    simp [fetchFullPaperContent, h1, h2, h3, h4]
  refine ⟨heq,
    ⟨"Full paper content extraction is currently unavailable for this paper.\n\nPaper ID: ",
     "\nDirect PDF link: " ++ pdfLink arxivId
       ++ "\n\nThe automatic text extraction encountered issues. Please use the arXiv link above to view the full paper directly.",
     ?_⟩,
    ⟨"Full paper content extraction is currently unavailable for this paper.\n\nPaper ID: "
       ++ arxivId ++ "\nDirect PDF link: ",
     "\n\nThe automatic text extraction encountered issues. Please use the arXiv link above to view the full paper directly.",
     ?_⟩⟩
  · rw [heq]
    simp [placeholderMessage, String.append_assoc]
  · rw [heq]
    simp [placeholderMessage, String.append_assoc]

/-- The all-throwing run of the C8 and C9 witnesses. -/
def inpAllFail : ContentFetchInput :=
  { textReq := FetchOutcome.throws, htmlReq := FetchOutcome.throws,
    latexReq := FetchOutcome.throws, outerThrows := false }

/-- Witness for C8: with all three fetches throwing, the placeholder comes
back. -/
theorem fetchFullPaperContent_all_fail_placeholder_witness :
    method1 inpAllFail.textReq = none
    ∧ fetchFullPaperContent "2501.12345" inpAllFail = placeholderMessage "2501.12345" :=
  ⟨rfl,
   (fetchFullPaperContent_all_fail_placeholder "2501.12345" inpAllFail rfl rfl rfl rfl).1⟩

/-- C9.  For every nonempty paper id, `GET /papers/{id}/content` answers
with `hasContent = true`: every return path of the Content Fetcher — an
extracted text longer than 1000 characters, the placeholder message, or the
outer-catch error message — is a nonempty string. -/
theorem paperContentGET_hasContent_always_true (arxivId : String) (inp : ContentFetchInput)
    (h : arxivId ≠ "") :
    paperContentGET arxivId inp
      = ContentResponse.ok arxivId (fetchFullPaperContent arxivId inp) true := by
  unfold paperContentGET
  rw [if_neg h]
  dsimp only
  rw [decide_eq_true (fetchFullPaperContent_length_pos arxivId inp)]

/-- Witness for C9 at a concrete id and the all-throwing run. -/
theorem paperContentGET_hasContent_always_true_witness :
    ("2501.12345" : String) ≠ ""
    ∧ paperContentGET "2501.12345" inpAllFail
        = ContentResponse.ok "2501.12345" (fetchFullPaperContent "2501.12345" inpAllFail) true :=
  ⟨by decide, paperContentGET_hasContent_always_true "2501.12345" inpAllFail (by decide)⟩
